import Mathlib

set_option maxHeartbeats 1600000

/-!
Shallow embedding of the haormj/roller rotation and retention engine.

The repository contains two engine variants in package `roller`:

* `LumberjackRoller` (lumberjack_roller.go, options.go): an enum-selected
  strategy (`SizeRotateStrategy` / `DirectRotateStrategy`), a retention
  pass `millRunOnce` with total-size / count / age filters and gzip
  compression, and the backup-name machinery (`backupName`,
  `timeFromName`, `prefixAndExt`, `oldLogFiles`).
* the composable-predicate `Roller` (roller.go): an OR-composed
  size/duration trigger `isRotate`, with retention delegated to an
  external `fileshredder` package, and a `Close` that unconditionally
  closes the mill channel.

Modelling conventions:

* Strings are `List Char` (Go strings are byte sequences; all names in
  the claims are ASCII).
* The filesystem is a single directory, modelled as an association list
  from file name to content.  `filepath.Dir` / `filepath.Join` plumbing
  is dropped: the configured file name is used as the key of the active
  file, which is exact for directory-free file names (the claims operate
  at base-name level, as does `ioutil.ReadDir`).
* Machine integers (`int64`, `int`) are `Int`; byte counts are `Nat`.
* Fallible filesystem calls consult an explicit environment `Env` that
  can inject an error at each call site the Go code checks; the same
  environment carries the mocked `currentTime`.
* Go `time.Time` values are calendar datetimes `DateTime`; the
  `time.Format` / `time.Parse` pair for the default layout
  `2006-01-02T15-04-05.000` is embedded directly (fixed-width fields,
  zero padding, range validation on parse, as Go performs them).
-/

namespace Roller

/-- Tags identifying injected I/O failures of the environment. -/
abbrev IoTag := Nat

/-- Errors surfaced by the engine.  `writeTooLong` models the sentinel
`ErrWriteTooLong`; `invalidHandle` models `os.ErrInvalid` (an operation on
a nil `*os.File`); `notExist` models `os.ErrNotExist`; `io` wraps any
other injected filesystem error. -/
inductive Err where
  | writeTooLong
  | invalidHandle
  | notExist
  | io (tag : IoTag)
  deriving DecidableEq, Repr

/-- A calendar datetime at millisecond resolution, the resolution of the
default backup time format `2006-01-02T15-04-05.000`. -/
structure DateTime where
  year : Nat
  month : Nat
  day : Nat
  hour : Nat
  minute : Nat
  second : Nat
  milli : Nat
  deriving DecidableEq, Repr

/-- The decimal digit character for `n % 10`. -/
def digitChar (n : Nat) : Char := Char.ofNat (48 + n % 10)

/-- Two-digit zero-padded rendering, as Go `Format` renders `01`, `02`,
`15`, `04`, `05`. -/
def pad2 (n : Nat) : List Char := [digitChar (n / 10), digitChar n]

/-- Three-digit zero-padded rendering, as Go `Format` renders `.000`. -/
def pad3 (n : Nat) : List Char := [digitChar (n / 100), digitChar (n / 10), digitChar n]

/-- Four-digit zero-padded rendering, as Go `Format` renders `2006`. -/
def pad4 (n : Nat) : List Char :=
  [digitChar (n / 1000), digitChar (n / 100), digitChar (n / 10), digitChar n]

/-- `t.Format("2006-01-02T15-04-05.000")`: the default backup timestamp. -/
def formatTimestamp (t : DateTime) : List Char :=
  pad4 t.year ++ '-' :: (pad2 t.month ++ '-' :: (pad2 t.day ++ 'T' :: (pad2 t.hour
    ++ '-' :: (pad2 t.minute ++ '-' :: (pad2 t.second ++ '.' :: pad3 t.milli)))))

/-- Value of a decimal digit character, `none` on a non-digit. -/
def digit? (c : Char) : Option Nat :=
  if 48 ≤ c.toNat ∧ c.toNat ≤ 57 then some (c.toNat - 48) else none

/-- Two fixed digits, as Go `Parse` consumes a zero-padded two-digit field. -/
def num2 (a b : Char) : Option Nat :=
  match digit? a, digit? b with
  | some x, some y => some (10 * x + y)
  | _, _ => none

/-- Three fixed digits. -/
def num3 (a b c : Char) : Option Nat :=
  match digit? a, digit? b, digit? c with
  | some x, some y, some z => some (100 * x + 10 * y + z)
  | _, _, _ => none

/-- Four fixed digits. -/
def num4 (a b c d : Char) : Option Nat :=
  match digit? a, digit? b with
  | some x, some y =>
    match digit? c, digit? d with
    | some z, some w => some (1000 * x + 100 * y + 10 * z + w)
    | _, _ => none
  | _, _ => none

/-- Days in a month, with the Gregorian leap rule, as Go's `daysIn` used
by `time.Parse` range validation. -/
def daysIn (month year : Nat) : Nat :=
  if month = 2 then
    (if year % 4 = 0 ∧ (year % 100 ≠ 0 ∨ year % 400 = 0) then 29 else 28)
  else if month = 4 ∨ month = 6 ∨ month = 9 ∨ month = 11 then 30 else 31

/-- The range checks Go's `time.Parse` applies to the parsed fields. -/
def validDate (t : DateTime) : Prop :=
  1 ≤ t.month ∧ t.month ≤ 12 ∧ 1 ≤ t.day ∧ t.day ≤ daysIn t.month t.year ∧
    t.hour < 24 ∧ t.minute < 60 ∧ t.second < 60 ∧ t.milli < 1000

instance : DecidablePred validDate := fun t => by unfold validDate; infer_instance

/-- `time.Parse("2006-01-02T15-04-05.000", s)`: fixed-width fields with
literal separators, then range validation. -/
def parseTimestamp (cs : List Char) : Option DateTime :=
  match cs with
  | [y1, y2, y3, y4, q1, m1, m2, q2, d1, d2, q3, h1, h2, q4, n1, n2, q5, e1, e2, q6,
      a1, a2, a3] =>
    if q1 = '-' ∧ q2 = '-' ∧ q3 = 'T' ∧ q4 = '-' ∧ q5 = '-' ∧ q6 = '.' then
      match num4 y1 y2 y3 y4, num2 m1 m2, num2 d1 d2, num2 h1 h2, num2 n1 n2,
          num2 e1 e2, num3 a1 a2 a3 with
      | some y, some mo, some d, some h, some mi, some se, some ms =>
        let t : DateTime := ⟨y, mo, d, h, mi, se, ms⟩
        if validDate t then some t else none
      | _, _, _, _, _, _, _ => none
    else none
  | _ => none

/-- Chronological key of a datetime (mixed-radix; strictly monotone in
the calendar order for in-range fields, so it mirrors `time.After` /
`time.Before` on parsed backup timestamps, which all carry the same
location). -/
def DateTime.key (t : DateTime) : Nat :=
  ((((((t.year * 13 + t.month) * 32 + t.day) * 24 + t.hour) * 60 + t.minute) * 60
      + t.second) * 1000) + t.milli

/-! ### Round-trip of the timestamp rendering -/

theorem digit?_digitChar (n : Nat) : digit? (digitChar n) = some (n % 10) := by
  have h : n % 10 < 10 := Nat.mod_lt _ (by norm_num)
  unfold digitChar
  set k := n % 10 with hk
  interval_cases k <;> rfl

theorem num2_pad2 (n : Nat) (h : n < 100) :
    num2 (digitChar (n / 10)) (digitChar n) = some n := by
  have h1 : n / 10 % 10 = n / 10 := Nat.mod_eq_of_lt (by omega)
  simp only [num2, digit?_digitChar, h1, Option.some.injEq]
  omega

theorem num3_pad3 (n : Nat) (h : n < 1000) :
    num3 (digitChar (n / 100)) (digitChar (n / 10)) (digitChar n) = some n := by
  have h1 : n / 100 % 10 = n / 100 := Nat.mod_eq_of_lt (by omega)
  simp only [num3, digit?_digitChar, h1, Option.some.injEq]
  omega

theorem num4_pad4 (n : Nat) (h : n < 10000) :
    num4 (digitChar (n / 1000)) (digitChar (n / 100)) (digitChar (n / 10))
      (digitChar n) = some n := by
  have h1 : n / 1000 % 10 = n / 1000 := Nat.mod_eq_of_lt (by omega)
  simp only [num4, digit?_digitChar, h1, Option.some.injEq]
  omega

theorem parse_format_roundtrip (t : DateTime) (hv : validDate t)
    (hy : t.year < 10000) : parseTimestamp (formatTimestamp t) = some t := by
  obtain ⟨h1, h2, h3, h4, h5, h6, h7, h8⟩ := hv
  have hmo : t.month < 100 := by omega
  have hdays : daysIn t.month t.year ≤ 31 := by
    unfold daysIn
    split
    · split <;> omega
    · split <;> omega
  have hd : t.day < 100 := by omega
  have hh : t.hour < 100 := by omega
  have hmi : t.minute < 100 := by omega
  have hs : t.second < 100 := by omega
  show parseTimestamp (pad4 t.year ++ '-' :: (pad2 t.month ++ '-' :: (pad2 t.day
      ++ 'T' :: (pad2 t.hour ++ '-' :: (pad2 t.minute ++ '-' :: (pad2 t.second
      ++ '.' :: pad3 t.milli)))))) = some t
  rw [pad4, pad2, pad2, pad2, pad2, pad2, pad3]
  show parseTimestamp [digitChar (t.year / 1000), digitChar (t.year / 100),
      digitChar (t.year / 10), digitChar t.year, '-', digitChar (t.month / 10),
      digitChar t.month, '-', digitChar (t.day / 10), digitChar t.day, 'T',
      digitChar (t.hour / 10), digitChar t.hour, '-', digitChar (t.minute / 10),
      digitChar t.minute, '-', digitChar (t.second / 10), digitChar t.second, '.',
      digitChar (t.milli / 100), digitChar (t.milli / 10), digitChar t.milli]
      = some t
  have hvd : validDate ⟨t.year, t.month, t.day, t.hour, t.minute, t.second, t.milli⟩ :=
    ⟨h1, h2, h3, h4, h5, h6, h7, h8⟩
  simp only [parseTimestamp, num4_pad4 _ hy, num2_pad2 _ hmo, num2_pad2 _ hd,
    num2_pad2 _ hh, num2_pad2 _ hmi, num2_pad2 _ hs, num3_pad3 _ h8, hvd,
    and_self, if_true, if_pos]

theorem formatTimestamp_length (t : DateTime) : (formatTimestamp t).length = 23 := by
  rw [formatTimestamp, pad4, pad2, pad2, pad2, pad2, pad2, pad3]
  simp

/-! ### File-name utilities (`strings.TrimSuffix`, `filepath.Ext`,
`filepath.Base`) -/

/-- `strings.TrimSuffix(s, suf)`. -/
def trimSuffix (s suf : List Char) : List Char :=
  if suf.isSuffixOf s then s.take (s.length - suf.length) else s

/-- `filepath.Ext`: the suffix of the name starting at the final dot,
empty when the name has no dot. -/
def fileExt (name : List Char) : List Char :=
  if (name.reverse.takeWhile (fun c => c ≠ '.')).length = name.length then []
  else '.' :: (name.reverse.takeWhile (fun c => c ≠ '.')).reverse

/-- The name with its `fileExt` removed
(`filename[:len(filename)-len(ext)]`). -/
def fileStem (name : List Char) : List Char :=
  name.take (name.length - (fileExt name).length)

/-- `filepath.Base` for slash-free or simple `dir/name` paths: the part
after the final slash. -/
def baseName (p : List Char) : List Char :=
  (p.reverse.takeWhile (fun c => c ≠ '/')).reverse

theorem fileStem_append_fileExt (name : List Char) :
    fileStem name ++ fileExt name = name := by
  unfold fileStem fileExt
  set tl := name.reverse.takeWhile (fun c => c ≠ '.') with htl
  by_cases h : tl.length = name.length
  · simp [h]
  · simp only [h, if_neg, not_false_iff]
    have hsplit : tl ++ name.reverse.dropWhile (fun c => c ≠ '.') = name.reverse := by
      rw [htl]; exact List.takeWhile_append_dropWhile ..
    rcases hdw : name.reverse.dropWhile (fun c => c ≠ '.') with _ | ⟨d, rest⟩
    · exfalso
      apply h
      rw [hdw, List.append_nil] at hsplit
      rw [hsplit, List.length_reverse]
    · have hd : d = '.' := by
        have := List.head_dropWhile_not (fun c => c ≠ '.') (l := name.reverse)
        rw [hdw] at this
        simpa using this (by simp)
      have hname : name = rest.reverse ++ '.' :: tl.reverse := by
        have : name.reverse.reverse = (tl ++ d :: rest).reverse := by
          rw [← hdw, hsplit]
        simpa [hd, List.reverse_append] using this
      have hlen : name.length - ('.' :: tl.reverse).length = rest.reverse.length := by
        rw [hname]; simp
      rw [hlen, hname, List.take_left]

theorem fileExt_cases (name : List Char) :
    fileExt name = [] ∨ ∃ r, fileExt name = '.' :: r := by
  unfold fileExt
  split
  · exact Or.inl rfl
  · exact Or.inr ⟨_, rfl⟩

theorem backupName_length_aux (name : List Char) :
    (fileStem name).length + (fileExt name).length = name.length := by
  have := congrArg List.length (fileStem_append_fileExt name)
  simpa using this

/-! ### Backup naming (`backupName`, `prefixAndExt`, `timeFromName`) -/

/-- `LumberjackRoller.backupName` at base-name level: inserts the
formatted rotation time between the stem and the extension.  The
`filepath.Dir` re-join is dropped (single-directory model); `currentTime`
is supplied by the environment. -/
def backupName (name : List Char) (t : DateTime) : List Char :=
  let base := baseName name
  fileStem base ++ '-' :: (formatTimestamp t ++ fileExt base)

/-- `LumberjackRoller.timeFromName`: strip the prefix and extension,
parse what is between.  (Go slices `filename[len(pre):len(filename)-len(ext)]`;
for names passing both the prefix and suffix checks with
`len(pre) ≤ len(filename)-len(ext)` — every name this engine generates —
the drop/take below is that slice.) -/
def timeFromName (filename pre ext : List Char) : Option DateTime :=
  if pre.isPrefixOf filename then
    if ext.isSuffixOf filename then
      parseTimestamp ((filename.drop pre.length).take
        (filename.length - ext.length - pre.length))
    else none
  else none

theorem timeFromName_backupName (stem ext : List Char) (ts : List Char) :
    timeFromName (stem ++ '-' :: (ts ++ ext)) (stem ++ ['-']) ext
      = parseTimestamp ts := by
  have hassoc : stem ++ '-' :: (ts ++ ext) = (stem ++ ['-']) ++ (ts ++ ext) := by
    simp
  rw [timeFromName, hassoc]
  rw [if_pos (List.isPrefixOf_iff_prefix.mpr ⟨ts ++ ext, rfl⟩)]
  rw [if_pos (List.isSuffixOf_iff_suffix.mpr ⟨(stem ++ ['-']) ++ ts, by simp⟩)]
  rw [List.drop_left]
  have hlen : ((stem ++ ['-']) ++ (ts ++ ext)).length - ext.length
      - (stem ++ ['-']).length = ts.length := by
    simp
    omega
  rw [hlen, List.take_left]

/-! ### Filesystem model: one directory as an association list -/

/-- Content of a file.  `plain n` is `n` uncompressed bytes; `gzipOf c n`
is a gzip encoding of content `c`, occupying `n` bytes on disk. -/
inductive Content where
  | plain (sz : Nat)
  | gzipOf (src : Content) (sz : Nat)
  deriving DecidableEq, Repr

/-- On-disk byte size (`FileInfo.Size`). -/
def Content.size : Content → Nat
  | .plain n => n
  | .gzipOf _ n => n

/-- Appending `n` bytes through an open handle. -/
def Content.grow : Content → Nat → Content
  | .plain s, n => .plain (s + n)
  | .gzipOf c s, n => .gzipOf c (s + n)

/-- A directory entry (`os.FileInfo`): name, directory flag, content. -/
structure Entry where
  name : List Char
  isDir : Bool
  content : Content
  deriving DecidableEq, Repr

/-- The log directory. -/
abbrev FS := List Entry

/-- Stat/read a name. -/
def FS.lookup : FS → List Char → Option Content
  | [], _ => none
  | e :: rest, n => if e.name = n then some e.content else FS.lookup rest n

/-- `os.Remove`'s effect: drop the entries carrying the name. -/
def FS.erase : FS → List Char → FS
  | [], _ => []
  | e :: rest, n => if e.name = n then FS.erase rest n else e :: FS.erase rest n

/-- Create-or-truncate a regular file with the given content. -/
def FS.setContent (fs : FS) (n : List Char) (c : Content) : FS :=
  fs.erase n ++ [⟨n, false, c⟩]

/-- `os.Rename old new`: no-op when `old` is absent (callers stat first). -/
def FS.rename (fs : FS) (old new : List Char) : FS :=
  match fs.lookup old with
  | none => fs
  | some c => (fs.erase old).setContent new c

/-- Append `k` bytes to the file named `n`, if present. -/
def FS.growAt (fs : FS) (n : List Char) (k : Nat) : FS :=
  match fs.lookup n with
  | none => fs
  | some c => fs.setContent n (c.grow k)

theorem FS.lookup_erase_self (fs : FS) (n : List Char) : (fs.erase n).lookup n = none := by
  induction fs with
  | nil => rfl
  | cons e rest ih =>
    by_cases h : e.name = n
    · simpa [FS.erase, h] using ih
    · simpa [FS.erase, h, FS.lookup] using ih

theorem FS.lookup_erase_ne (fs : FS) (n m : List Char) (h : m ≠ n) :
    (fs.erase n).lookup m = fs.lookup m := by
  induction fs with
  | nil => rfl
  | cons e rest ih =>
    by_cases he : e.name = n
    · have hem : e.name ≠ m := fun hc => h (hc ▸ he)
      simp [FS.erase, he, FS.lookup, hem, ih, show n ≠ m from fun hc => h hc.symm]
    · by_cases hm : e.name = m
      · simp [FS.erase, he, FS.lookup, hm, h]
      · simp [FS.erase, he, FS.lookup, hm, ih]

theorem FS.lookup_append (fs₁ fs₂ : FS) (n : List Char) :
    FS.lookup (fs₁ ++ fs₂) n =
      match fs₁.lookup n with
      | some c => some c
      | none => fs₂.lookup n := by
  induction fs₁ with
  | nil => simp [FS.lookup]
  | cons e rest ih =>
    by_cases h : e.name = n
    · simp [FS.lookup, h]
    · simp [FS.lookup, h, ih]

theorem FS.lookup_setContent_self (fs : FS) (n : List Char) (c : Content) :
    (fs.setContent n c).lookup n = some c := by
  rw [FS.setContent, FS.lookup_append, FS.lookup_erase_self]
  simp [FS.lookup]

theorem FS.lookup_setContent_ne (fs : FS) (n m : List Char) (c : Content) (h : m ≠ n) :
    (fs.setContent n c).lookup m = fs.lookup m := by
  rw [FS.setContent, FS.lookup_append, FS.lookup_erase_ne fs n m h]
  cases hfs : fs.lookup m with
  | some c' => rfl
  | none => simp [FS.lookup, show n ≠ m from fun hc => h hc.symm]

/-! ### The environment: mocked clock and injectable I/O failures -/

/-- One `Write`-path invocation's environment: the mocked `currentTime`
(and the precomputed age cutoff `currentTime().Add(-maxAge)` the mill
uses), plus, per call site that the Go code error-checks, an optional
injected failure.  `writeRes` gives the underlying `file.Write` outcome
for a requested length (bytes actually written are clamped to the
request, as a `Write` never reports more than it was asked). -/
structure Env where
  now : DateTime
  cutoff : DateTime
  sinceCreate : Int
  closeErr : Option IoTag
  mkdirErr : Option IoTag
  statErr : Option IoTag
  renameErr : Option IoTag
  openErr : Option IoTag
  writeRes : Nat → Nat × Option IoTag
  gzSize : Nat
  openSrcErr : Option IoTag
  statSrcErr : Option IoTag
  openDstErr : Option IoTag
  copyErr : Option IoTag
  gzCloseErr : Option IoTag
  gzfCloseErr : Option IoTag
  fCloseErr : Option IoTag
  removeSrcErr : Option IoTag
  removeErr : List Char → Option IoTag

/-- An environment in which every filesystem call succeeds. -/
def Env.ok (now : DateTime) : Env where
  now := now
  cutoff := now
  sinceCreate := 0
  closeErr := none
  mkdirErr := none
  statErr := none
  renameErr := none
  openErr := none
  writeRes := fun k => (k, none)
  gzSize := 1
  openSrcErr := none
  statSrcErr := none
  openDstErr := none
  copyErr := none
  gzCloseErr := none
  gzfCloseErr := none
  fCloseErr := none
  removeSrcErr := none
  removeErr := fun _ => none

/-- The write/rotate path of the environment succeeds everywhere. -/
def Env.allOk (env : Env) : Prop :=
  env.closeErr = none ∧ env.mkdirErr = none ∧ env.statErr = none ∧
    env.renameErr = none ∧ env.openErr = none ∧ ∀ k, env.writeRes k = (k, none)

theorem Env.ok_allOk (now : DateTime) : (Env.ok now).allOk :=
  ⟨rfl, rfl, rfl, rfl, rfl, fun _ => rfl⟩

/-! ### LumberjackRoller (lumberjack_roller.go, options.go) -/

/-- `RotateStrategy`: `SizeRotateStrategy = 0`, `DirectRotateStrategy = 1`. -/
inductive RotateStrategy where
  | size
  | direct
  deriving DecidableEq, Repr

/-- `Options` of the lumberjack variant.  `BackupTimeFormat` and
`BackupTimeLocation` are fixed at their defaults in this model (the
default layout is embedded in `formatTimestamp`); `FileMaxAge` is in the
clock's units. -/
structure Options where
  FileName : List Char
  FileMaxAge : Int
  FileMaxCount : Int
  MaxSize : Int
  RotateStrategy : RotateStrategy
  FileMaxSize : Int
  Compress : Bool
  CompressSuffix : List Char
  deriving DecidableEq, Repr

/-- Mutable state of a `LumberjackRoller`: the tracked size, whether the
handle is open, the directory contents, the pending mill signal
(capacity-one channel), plus two instrumentation counters — successful
rotations and `openNew` attempts — that exist only to state theorems. -/
structure LState where
  opts : Options
  size : Int
  fileOpen : Bool
  fs : FS
  millPending : Bool
  rotations : Nat
  openAttempts : Nat
  deriving DecidableEq, Repr

/-- `LumberjackRoller.close`: no-op when the handle is nil; otherwise
close it and drop the reference (the reference is dropped even when
`Close` fails). -/
def lclose (s : LState) (env : Env) : Option Err × LState :=
  if s.fileOpen then (env.closeErr.map .io, { s with fileOpen := false })
  else (none, s)

/-- The trailing `os.OpenFile(name, O_CREATE|O_WRONLY|O_TRUNC, mode)` of
`openNew`: truncate-create the canonical file, reset the tracked size. -/
def openCreate (s : LState) (env : Env) (name : List Char) : Option Err × LState :=
  match env.openErr with
  | some t => (some (.io t), s)
  | none =>
    (none, { s with fs := s.fs.setContent name (.plain 0), fileOpen := true, size := 0 })

/-- `LumberjackRoller.openNew`: mkdir, stat the canonical file, rename it
to its backup name when the stat succeeds, then truncate-create a fresh
canonical file.  `chown` is modelled from the spec: the repository has no
chown source file under src/, and the spec says preserving ownership is a
best-effort step that silently no-ops when ownership cannot be resolved,
so it is a no-op here. -/
def openNew (s : LState) (env : Env) : Option Err × LState :=
  let s := { s with openAttempts := s.openAttempts + 1 }
  match env.mkdirErr with
  | some t => (some (.io t), s)
  | none =>
    let name := s.opts.FileName
    if env.statErr = none ∧ (s.fs.lookup name).isSome then
      match env.renameErr with
      | some t => (some (.io t), s)
      | none =>
        openCreate { s with fs := s.fs.rename name (backupName name env.now) } env name
    else
      openCreate s env name

/-- `LumberjackRoller.mill`: non-blocking send on the capacity-one mill
channel — dropped when a run is already pending; either way exactly one
run is pending afterwards. -/
def mill (s : LState) : LState :=
  { s with millPending := true }

/-- `LumberjackRoller.rotate`: close, open new (renaming the old file
aside), then signal the mill.  The rotation counter records a completed
rotation. -/
def rotate (s : LState) (env : Env) : Option Err × LState :=
  match lclose s env with
  | (some e, s₁) => (some e, s₁)
  | (none, s₁) =>
    match openNew s₁ env with
    | (some e, s₂) => (some e, s₂)
    | (none, s₂) => (none, mill { s₂ with rotations := s₂.rotations + 1 })

/-- `r.file.Write(p)`: on a nil handle Go returns `os.ErrInvalid`;
otherwise the environment decides the outcome and the canonical file
grows by the bytes actually written. -/
def fileWrite (s : LState) (env : Env) (p : Nat) : (Nat × Option Err) × LState :=
  if s.fileOpen then
    let n := min (env.writeRes p).1 p
    ((n, (env.writeRes p).2.map .io), { s with fs := s.fs.growAt s.opts.FileName n })
  else ((0, some .invalidHandle), s)

/-- `LumberjackRoller.Write`. -/
def write (s : LState) (env : Env) (p : Nat) : (Nat × Option Err) × LState :=
  if s.opts.FileMaxSize > 0 ∧ (p : Int) > s.opts.FileMaxSize then
    ((0, some .writeTooLong), s)
  else
    match s.opts.RotateStrategy with
    | .size =>
      if s.size + (p : Int) > s.opts.FileMaxSize then
        match rotate s env with
        | (some e, s₁) => ((0, some e), s₁)
        | (none, s₁) =>
          match fileWrite s₁ env p with
          | ((n, e), s₂) => ((n, e), { s₂ with size := s₂.size + (n : Int) })
      else
        match fileWrite s env p with
        | ((n, e), s₂) => ((n, e), { s₂ with size := s₂.size + (n : Int) })
    | .direct =>
      match fileWrite s env p with
      | ((n, e), s₁) =>
        let s₂ := { s₁ with size := s₁.size + (n : Int) }
        match rotate s₂ env with
        | (some e₂, s₃) => ((0, some e₂), s₃)
        | (none, s₃) => ((n, e), s₃)

/-! ### Backup catalog and retention pass (the mill) -/

/-- `logInfo`: a backup's parsed rotation timestamp, name and size. -/
structure LogInfo where
  timestamp : DateTime
  name : List Char
  fsize : Nat
  deriving DecidableEq, Repr

/-- The order `byFormatTime` sorts into: newest timestamp first.
`sort.Sort(byFormatTime(...))` with `Less i j = t_i.After(t_j)` yields a
sequence that is non-increasing in the timestamp. -/
def liGE (a b : LogInfo) : Prop := b.timestamp.key ≤ a.timestamp.key

instance : DecidableRel liGE := fun a b =>
  inferInstanceAs (Decidable (b.timestamp.key ≤ a.timestamp.key))

instance : IsTotal LogInfo liGE := ⟨fun a b => Nat.le_total b.timestamp.key a.timestamp.key⟩

instance : IsTrans LogInfo liGE := ⟨fun _ _ _ h₁ h₂ => Nat.le_trans h₂ h₁⟩

/-- `LumberjackRoller.prefixAndExt`: the canonical base name split into
`stem ++ "-"` and the extension. -/
def prefixAndExt (opts : Options) : List Char × List Char :=
  (fileStem (baseName opts.FileName) ++ ['-'], fileExt (baseName opts.FileName))

/-- The per-entry step of `oldLogFiles`: skip directories, then try the
plain extension and the extension plus compression suffix. -/
def parseEntry (opts : Options) (e : Entry) : Option LogInfo :=
  if e.isDir then none
  else
    match timeFromName e.name (prefixAndExt opts).1 (prefixAndExt opts).2 with
    | some t => some ⟨t, e.name, e.content.size⟩
    | none =>
      match timeFromName e.name (prefixAndExt opts).1
          ((prefixAndExt opts).2 ++ opts.CompressSuffix) with
      | some t => some ⟨t, e.name, e.content.size⟩
      | none => none

/-- `LumberjackRoller.oldLogFiles`: scan the directory, keep what parses,
sort newest first.  `sort.Sort` guarantees a sorted permutation; it is
realised here by insertion sort. -/
def oldLogFiles (opts : Options) (fs : FS) : List LogInfo :=
  List.insertionSort liGE (fs.filterMap (parseEntry opts))

/-- Stage 1 of `millRunOnce` (`MaxSize > 0`): walking newest→oldest,
accumulate sizes; once the running total exceeds the cap the entry is
marked for removal.  Returns (remaining, removed). -/
def sizeStage (maxSize : Int) : List LogInfo → Int → List LogInfo × List LogInfo
  | [], _ => ([], [])
  | f :: rest, total =>
    let total := total + (f.fsize : Int)
    let r := sizeStage maxSize rest total
    if total > maxSize then (r.1, f :: r.2) else (f :: r.1, r.2)

/-- Stage 2 of `millRunOnce` (count cap): walk newest→oldest keeping a
set `preserved` of names with the compression suffix trimmed; an entry is
removed when, after inserting its trimmed name, the set is larger than
the cap. -/
def countStage (maxCount : Int) (suf : List Char) :
    List LogInfo → List (List Char) → List LogInfo × List LogInfo
  | [], _ => ([], [])
  | f :: rest, preserved =>
    let fn := trimSuffix f.name suf
    let preserved' := if fn ∈ preserved then preserved else fn :: preserved
    let r := countStage maxCount suf rest preserved'
    if (preserved'.length : Int) > maxCount then (r.1, f :: r.2) else (f :: r.1, r.2)

/-- Stage 3 of `millRunOnce` (age cap): entries whose embedded timestamp
is strictly before the cutoff are removed. -/
def ageStage (cutoff : DateTime) (files : List LogInfo) : List LogInfo × List LogInfo :=
  (files.filter (fun f => !decide (f.timestamp.key < cutoff.key)),
    files.filter (fun f => decide (f.timestamp.key < cutoff.key)))

/-- `os.Remove` inside the mill loop. -/
def removeFile (env : Env) (fs : FS) (n : List Char) : Option Err × FS :=
  match env.removeErr n with
  | some t => (some (.io t), fs)
  | none =>
    if (fs.lookup n).isSome then (none, fs.erase n) else (some .notExist, fs)

/-- The mill's removal loop: best effort, keeping the first error. -/
def applyRemovals (env : Env) : FS → List LogInfo → Option Err → Option Err × FS
  | fs, [], acc => (acc, fs)
  | fs, f :: rest, acc =>
    let r := removeFile env fs f.name
    applyRemovals env r.2 rest (acc <|> r.1)

/-- `LumberjackRoller.compressLogFile src dst`: open the source, stat it,
chown the destination (modelled from the spec: best-effort no-op, no
chown source file exists under src/), truncate-create the destination,
stream-gzip into it, close the gzip writer, the destination, and the
source, then remove the source.  Any error after the destination was
created triggers the deferred removal of the partial destination. -/
def compressLogFile (env : Env) (fs : FS) (src dst : List Char) : Option Err × FS :=
  match env.openSrcErr with
  | some t => (some (.io t), fs)
  | none =>
    match fs.lookup src with
    | none => (some .notExist, fs)
    | some srcContent =>
      match env.statSrcErr with
      | some t => (some (.io t), fs)
      | none =>
        match env.openDstErr with
        | some t => (some (.io t), fs)
        | none =>
          let fs₁ := fs.setContent dst (.plain 0)
          match env.copyErr with
          | some t => (some (.io t), fs₁.erase dst)
          | none =>
            let fs₂ := fs₁.setContent dst (.gzipOf srcContent env.gzSize)
            match env.gzCloseErr with
            | some t => (some (.io t), fs₂.erase dst)
            | none =>
              match env.gzfCloseErr with
              | some t => (some (.io t), fs₂.erase dst)
              | none =>
                match env.fCloseErr with
                | some t => (some (.io t), fs₂.erase dst)
                | none =>
                  match env.removeSrcErr with
                  | some t => (some (.io t), fs₂.erase dst)
                  | none => (none, fs₂.erase src)

/-- The mill's compression loop: best effort, keeping the first error. -/
def applyCompressions (opts : Options) (env : Env) :
    FS → List LogInfo → Option Err → Option Err × FS
  | fs, [], acc => (acc, fs)
  | fs, f :: rest, acc =>
    let r := compressLogFile env fs f.name (f.name ++ opts.CompressSuffix)
    applyCompressions opts env r.2 rest (acc <|> r.1)

/-- `LumberjackRoller.millRunOnce`: short-circuit when nothing is
configured, otherwise list the catalog, run the three narrowing filters,
pick the files to compress, then apply removals and compressions. -/
def millRunOnce (opts : Options) (env : Env) (fs : FS) : Option Err × FS :=
  if opts.MaxSize = 0 ∧ opts.FileMaxCount = 0 ∧ opts.FileMaxAge = 0 ∧
      opts.Compress = false then
    (none, fs)
  else
    let files := oldLogFiles opts fs
    let p₁ := if opts.MaxSize > 0 then sizeStage opts.MaxSize files 0 else (files, [])
    let p₂ :=
      if opts.FileMaxCount > 0 ∧ opts.FileMaxCount < (p₁.1.length : Int) then
        countStage opts.FileMaxCount opts.CompressSuffix p₁.1 []
      else (p₁.1, [])
    let p₃ := if opts.FileMaxAge > 0 then ageStage env.cutoff p₂.1 else (p₂.1, [])
    let toCompress :=
      if opts.Compress then
        p₃.1.filter (fun f => !(opts.CompressSuffix.isSuffixOf f.name))
      else []
    let rr := applyRemovals env fs (p₁.2 ++ p₂.2 ++ p₃.2) none
    applyCompressions opts env rr.2 toCompress rr.1

/-! ### The composable-predicate variant (roller.go) -/

namespace RV

/-- `Options` of roller.go.  `RotateName` is the configurable naming
function; the `Lifecycle*` retention knobs configure the external
fileshredder collaborator and do not appear in the write path. -/
structure Options where
  Filename : List Char
  Size : Int
  Duration : Int
  RotateName : List Char → List Char

/-- Mutable state of a `Roller`: handle flag, tracked size, whether the
mill channel has been closed, and a counter of mill signals (the
unbuffered channel's successful non-blocking sends; whether a send is
taken depends on the worker, which is irrelevant to the claims). -/
structure RState where
  opts : Options
  fOpen : Bool
  size : Int
  fs : Roller.FS
  millClosed : Bool
  millSignals : Nat

/-- `Roller.close`: close the handle if open; the deferred block drops
the reference and resets size and creation time even when `Close`
errors. -/
def rclose (s : RState) (env : Roller.Env) : Option Roller.Err × RState :=
  if s.fOpen then (env.closeErr.map .io, { s with fOpen := false, size := 0 })
  else (none, s)

/-- `Roller.open`: stat the canonical file; open-append it when present
(tracked size from the stat), otherwise mkdir and truncate-create it. -/
def ropen (s : RState) (env : Roller.Env) : Option Roller.Err × RState :=
  match env.statErr with
  | some t => (some (.io t), s)
  | none =>
    match s.fs.lookup s.opts.Filename with
    | some c =>
      match env.openErr with
      | some t => (some (.io t), s)
      | none => (none, { s with fOpen := true, size := (c.size : Int) })
    | none =>
      match env.mkdirErr with
      | some t => (some (.io t), s)
      | none =>
        match env.openErr with
        | some t => (some (.io t), s)
        | none =>
          (none,
            { s with
              fOpen := true
              size := 0
              fs := s.fs.setContent s.opts.Filename (.plain 0) })

/-- `Roller.mill`: non-blocking send on the mill channel. -/
def rmill (s : RState) : RState :=
  { s with millSignals := s.millSignals + 1 }

/-- `Roller.rotate`: close, mkdir, rename the canonical file to
`RotateName(filename)` (`os.Rename` fails when the source is absent),
reopen, signal the mill. -/
def rrotate (s : RState) (env : Roller.Env) : Option Roller.Err × RState :=
  match rclose s env with
  | (some e, s₁) => (some e, s₁)
  | (none, s₁) =>
    match env.mkdirErr with
    | some t => (some (.io t), s₁)
    | none =>
      match env.renameErr with
      | some t => (some (.io t), s₁)
      | none =>
        if (s₁.fs.lookup s₁.opts.Filename).isSome then
          let s₂ := { s₁ with
            fs := s₁.fs.rename s₁.opts.Filename (s₁.opts.RotateName s₁.opts.Filename) }
          match ropen s₂ env with
          | (some e, s₃) => (some e, s₃)
          | (none, s₃) => (none, rmill s₃)
        else (some .notExist, s₁)

/-- `Roller.isRotate`: size trigger OR duration trigger. -/
def isRotate (s : RState) (env : Roller.Env) (writeLen : Int) : Bool :=
  if s.opts.Size > 0 ∧ writeLen + s.size > s.opts.Size then true
  else if s.opts.Duration > 0 ∧ env.sinceCreate > s.opts.Duration then true
  else false

/-- `r.f.Write(p)` followed by `r.size += int64(n)`. -/
def fileWriteR (s : RState) (env : Roller.Env) (p : Nat) :
    (Nat × Option Roller.Err) × RState :=
  if s.fOpen then
    let n := min (env.writeRes p).1 p
    ((n, (env.writeRes p).2.map .io),
      { s with size := s.size + (n : Int), fs := s.fs.growAt s.opts.Filename n })
  else ((0, some .invalidHandle), s)

/-- `Roller.Write`. -/
def rwrite (s : RState) (env : Roller.Env) (p : Nat) :
    (Nat × Option Roller.Err) × RState :=
  if s.opts.Size > 0 ∧ (p : Int) > s.opts.Size then
    ((0, some .writeTooLong), s)
  else if isRotate s env (p : Int) then
    match rrotate s env with
    | (some e, s₁) => ((0, some e), s₁)
    | (none, s₁) => fileWriteR s₁ env p
  else fileWriteR s env p

/-- Outcome of `Roller.Close`: Go panics when `close(millCh)` is called
on an already-closed channel. -/
inductive CloseOutcome where
  | panicked
  | ok (e : Option Roller.Err) (s : RState)

/-- `Roller.Close`: unconditionally `close(r.millCh)` — a panic when the
channel is already closed — then close the file. -/
def rCloseFull (s : RState) (env : Roller.Env) : CloseOutcome :=
  if s.millClosed then .panicked
  else
    .ok (rclose { s with millClosed := true } env).1
      (rclose { s with millClosed := true } env).2

end RV

/-! ### Concrete fixtures used by the witnesses -/

/-- A rotation instant used by witnesses. -/
def cDate : DateTime := ⟨2024, 1, 2, 3, 4, 5, 6⟩

/-- A size-strategy configuration with max size 100. -/
def cOpts : Options :=
  ⟨("app.log").toList, 0, 0, 0, .size, 100, false, (".gz").toList⟩

/-- A freshly-opened engine state over an empty canonical file. -/
def cState : LState :=
  ⟨cOpts, 0, true, [⟨("app.log").toList, false, .plain 0⟩], false, 0, 0⟩

/-! ### Supporting lemmas on the naming scheme -/

theorem timeFromName_self_none (base X : List Char) :
    timeFromName base (fileStem base ++ ['-']) X = none := by
  unfold timeFromName
  rw [if_neg]
  intro hpre
  have hpre' : fileStem base ++ ['-'] <+: base := List.isPrefixOf_iff_prefix.mp hpre
  have heq : fileStem base ++ fileExt base = base := fileStem_append_fileExt base
  rcases fileExt_cases base with hex | ⟨r, hex⟩
  · rw [hex, List.append_nil] at heq
    have hl := hpre'.length_le
    rw [heq] at hl
    simp at hl
  · rw [hex] at heq
    obtain ⟨tl2, htl⟩ := hpre'
    have h3 : fileStem base ++ ('-' :: tl2) = fileStem base ++ ('.' :: r) := by
      calc fileStem base ++ ('-' :: tl2) = (fileStem base ++ ['-']) ++ tl2 := by simp
        _ = base := htl
        _ = fileStem base ++ ('.' :: r) := heq.symm
    have h4 : ('-' :: tl2) = ('.' :: r) := by simpa using h3
    injection h4 with h5 _
    exact absurd h5 (by decide)

theorem parseEntry_name (opts : Options) (e : Entry) (li : LogInfo)
    (h : parseEntry opts e = some li) : li.name = e.name := by
  unfold parseEntry at h
  rcases hd : e.isDir with _ | _ <;> rw [hd] at h
  · simp only [Bool.false_eq_true, if_false] at h
    rcases h1 : timeFromName e.name (prefixAndExt opts).1 (prefixAndExt opts).2
        with _ | t <;> rw [h1] at h
    · rcases h2 : timeFromName e.name (prefixAndExt opts).1
          ((prefixAndExt opts).2 ++ opts.CompressSuffix) with _ | t2 <;> rw [h2] at h
      · exact absurd h (by simp)
      · cases h; rfl
    · cases h; rfl
  · simp at h

theorem parseEntry_base_none (opts : Options) (e : Entry)
    (hn : e.name = baseName opts.FileName) : parseEntry opts e = none := by
  unfold parseEntry
  split
  · rfl
  · have h1 := timeFromName_self_none (baseName opts.FileName) (prefixAndExt opts).2
    have h2 := timeFromName_self_none (baseName opts.FileName)
      ((prefixAndExt opts).2 ++ opts.CompressSuffix)
    rw [hn]
    unfold prefixAndExt
    unfold prefixAndExt at h1 h2
    rw [h1, h2]

/-! ### Claim theorems -/

/-- C6.  Backup naming round-trips: for every configuration and every
rotation time `t` that is a valid calendar datetime with a four-digit
year, parsing the timestamp back out of the backup filename generated
for `t` — with the prefix and extension the engine itself derives from
the configured canonical name — yields `t` again (the default format's
resolution is the millisecond, and `DateTime` carries exactly that
resolution). -/
theorem backup_name_roundtrip (opts : Options) (t : DateTime)
    (hv : validDate t) (hy : t.year < 10000) :
    timeFromName (backupName opts.FileName t)
      (prefixAndExt opts).1 (prefixAndExt opts).2 = some t := by
  show timeFromName
      (fileStem (baseName opts.FileName)
        ++ '-' :: (formatTimestamp t ++ fileExt (baseName opts.FileName)))
      (fileStem (baseName opts.FileName) ++ ['-'])
      (fileExt (baseName opts.FileName)) = some t
  rw [timeFromName_backupName, parse_format_roundtrip t hv hy]

/-- Witness for C6 at the fixture configuration and a concrete instant. -/
theorem backup_name_roundtrip_witness :
    validDate cDate ∧
      timeFromName (backupName cOpts.FileName cDate)
        (prefixAndExt cOpts).1 (prefixAndExt cOpts).2 = some cDate :=
  ⟨by decide, backup_name_roundtrip cOpts cDate (by decide) (by decide)⟩

/-- C7.  The backup catalog is exactly the set of non-directory entries
whose names parse as prefix + timestamp + extension (plain or with the
compression suffix appended) — `parseEntry` is that per-entry test — and
the returned sequence is ordered by the parsed timestamp, most recent
first. -/
theorem old_log_files_exact_sorted (opts : Options) (fs : FS) :
    (∀ li, li ∈ oldLogFiles opts fs ↔ ∃ e, e ∈ fs ∧ parseEntry opts e = some li) ∧
      List.Sorted liGE (oldLogFiles opts fs) :=
  ⟨fun li =>
    ((List.perm_insertionSort liGE (fs.filterMap (parseEntry opts))).mem_iff).trans
      List.mem_filterMap,
    List.sorted_insertionSort liGE (fs.filterMap (parseEntry opts))⟩

/-- C8.  The active canonical file is never in the catalog a retention
pass operates on: its base name lacks the `-<timestamp>` infix, so it
parses under neither the plain nor the compressed pattern. -/
theorem canonical_never_in_catalog (opts : Options) (fs : FS) (li : LogInfo)
    (hmem : li ∈ oldLogFiles opts fs) : li.name ≠ baseName opts.FileName := by
  have hmem' : li ∈ fs.filterMap (parseEntry opts) :=
    (List.perm_insertionSort liGE (fs.filterMap (parseEntry opts))).mem_iff.mp hmem
  obtain ⟨e, hefs, hpe⟩ := List.mem_filterMap.mp hmem'
  intro hname
  have hen : e.name = baseName opts.FileName := by
    rw [← (parseEntry_name opts e li hpe)]; exact hname
  rw [parseEntry_base_none opts e hen] at hpe
  exact absurd hpe (by simp)

/-- Witness for C8: a directory holding the canonical file and one real
backup; the backup is in the catalog and its name differs from the
canonical base name. -/
theorem canonical_never_in_catalog_witness :
    (⟨cDate, backupName cOpts.FileName cDate, 60⟩ : LogInfo) ∈
        oldLogFiles cOpts
          [⟨("app.log").toList, false, .plain 5⟩,
            ⟨backupName cOpts.FileName cDate, false, .plain 60⟩] ∧
      (⟨cDate, backupName cOpts.FileName cDate, 60⟩ : LogInfo).name ≠
        baseName cOpts.FileName :=
  ⟨by decide,
    canonical_never_in_catalog cOpts
      [⟨("app.log").toList, false, .plain 5⟩,
        ⟨backupName cOpts.FileName cDate, false, .plain 60⟩]
      ⟨cDate, backupName cOpts.FileName cDate, 60⟩ (by decide)⟩

/-- C10.  `Roller.Close` of the composable-predicate variant is not
idempotent: any call that returns (rather than panics) leaves the mill
channel closed, so a second `Close` panics — `close(r.millCh)` on a
closed channel. -/
theorem close_not_idempotent (s : RV.RState) (env env' : Env)
    (e : Option Err) (s' : RV.RState)
    (h : RV.rCloseFull s env = .ok e s') : RV.rCloseFull s' env' = .panicked := by
  unfold RV.rCloseFull at h ⊢
  by_cases hm : s.millClosed
  · rw [if_pos hm] at h
    exact absurd h (by simp)
  · rw [if_neg hm] at h
    have hs' : s' = (RV.rclose { s with millClosed := true } env).2 := by
      injection h with h1 h2
      exact h2.symm
    have hmc : s'.millClosed = true := by
      rw [hs']
      unfold RV.rclose
      split <;> rfl
    rw [if_pos hmc]

/-! ### Shape of the errors the write path can produce -/

theorem lclose_err_shape (s : LState) (env : Env) (e : Err) (s₁ : LState)
    (h : lclose s env = (some e, s₁)) : ∃ t, e = .io t := by
  unfold lclose at h
  split at h
  · rcases hc : env.closeErr with _ | t <;> rw [hc] at h
    · exact absurd h (by simp)
    · exact ⟨t, by injection h with h1 _; injection h1 with h2; exact h2.symm⟩
  · exact absurd h (by simp)

theorem openCreate_err_shape (s : LState) (env : Env) (nm : List Char) (e : Err)
    (s₁ : LState) (h : openCreate s env nm = (some e, s₁)) : ∃ t, e = .io t := by
  unfold openCreate at h
  rcases ho : env.openErr with _ | t <;> rw [ho] at h
  · exact absurd h (by simp)
  · exact ⟨t, by injection h with h1 _; injection h1 with h2; exact h2.symm⟩

theorem openNew_err_shape (s : LState) (env : Env) (e : Err) (s₁ : LState)
    (h : openNew s env = (some e, s₁)) : ∃ t, e = .io t := by
  unfold openNew at h
  rcases hm : env.mkdirErr with _ | t <;> simp only [hm] at h
  · split at h
    · rcases hr : env.renameErr with _ | t <;> simp only [hr] at h
      · exact openCreate_err_shape _ _ _ _ _ h
      · exact ⟨t, by injection h with h1 _; injection h1 with h2; exact h2.symm⟩
    · exact openCreate_err_shape _ _ _ _ _ h
  · exact ⟨t, by injection h with h1 _; injection h1 with h2; exact h2.symm⟩

theorem rotate_err_shape (s : LState) (env : Env) (e : Err) (s₁ : LState)
    (h : rotate s env = (some e, s₁)) : ∃ t, e = .io t := by
  unfold rotate at h
  rcases h1 : lclose s env with ⟨eo, s₂⟩
  rcases eo with _ | e₁
  · rcases h2 : openNew s₂ env with ⟨eo₂, s₃⟩
    rcases eo₂ with _ | e₂
    · simp only [h1, h2] at h
      exact absurd h (by simp)
    · simp only [h1, h2] at h
      injection h with ha hb
      injection ha with hc
      exact hc ▸ openNew_err_shape _ _ _ _ h2
  · simp only [h1] at h
    injection h with ha hb
    injection ha with hc
    exact hc ▸ lclose_err_shape _ _ _ _ h1

theorem fileWrite_err_shape (s : LState) (env : Env) (p : Nat) (e : Err)
    (h : (fileWrite s env p).1.2 = some e) : e = .invalidHandle ∨ ∃ t, e = .io t := by
  unfold fileWrite at h
  split at h
  · rcases hw : (env.writeRes p).2 with _ | t <;> simp only [hw] at h
    · exact absurd h (by simp)
    · right; exact ⟨t, by injection h with h2; exact h2.symm⟩
  · left
    injection h with h2
    exact h2.symm

theorem write_no_tooLong (s : LState) (env : Env) (p : Nat)
    (hg : ¬(s.opts.FileMaxSize > 0 ∧ (p : Int) > s.opts.FileMaxSize)) :
    (write s env p).1.2 ≠ some Err.writeTooLong := by
  intro hcon
  rcases hw : write s env p with ⟨⟨n, eo⟩, s'⟩
  rw [hw] at hcon
  simp only at hcon
  subst hcon
  unfold write at hw
  rw [if_neg hg] at hw
  rcases hstrat : s.opts.RotateStrategy with _ | _ <;> simp only [hstrat] at hw
  · split at hw
    · rcases h1 : rotate s env with ⟨eo₁, s₁⟩
      rcases eo₁ with _ | e₁
      · simp only [h1] at hw
        rcases h2 : fileWrite s₁ env p with ⟨⟨n₂, eo₂⟩, s₂⟩
        simp only [h2] at hw
        injection hw with ha hb
        injection ha with ha1 ha2
        have h3 : (fileWrite s₁ env p).1.2 = some Err.writeTooLong := by
          rw [h2, ← ha2]
        rcases fileWrite_err_shape s₁ env p _ h3 with hh | ⟨t, hh⟩ <;> simp at hh
      · simp only [h1] at hw
        injection hw with ha hb
        injection ha with ha1 ha2
        obtain ⟨t, ht⟩ := rotate_err_shape s env e₁ s₁ h1
        injection ha2 with he
        rw [he] at ht
        simp at ht
    · rcases h2 : fileWrite s env p with ⟨⟨n₂, eo₂⟩, s₂⟩
      simp only [h2] at hw
      injection hw with ha hb
      injection ha with ha1 ha2
      have h3 : (fileWrite s env p).1.2 = some Err.writeTooLong := by
        rw [h2, ← ha2]
      rcases fileWrite_err_shape s env p _ h3 with hh | ⟨t, hh⟩ <;> simp at hh
  · rcases h2 : fileWrite s env p with ⟨⟨n₂, eo₂⟩, s₂⟩
    simp only [h2] at hw
    rcases h3 : rotate { s₂ with size := s₂.size + (n₂ : Int) } env with ⟨eo₃, s₃⟩
    rcases eo₃ with _ | e₃
    · simp only [h3] at hw
      injection hw with ha hb
      injection ha with ha1 ha2
      have h4 : (fileWrite s env p).1.2 = some Err.writeTooLong := by
        rw [h2, ← ha2]
      rcases fileWrite_err_shape s env p _ h4 with hh | ⟨t, hh⟩ <;> simp at hh
    · simp only [h3] at hw
      injection hw with ha hb
      injection ha with ha1 ha2
      obtain ⟨t, ht⟩ := rotate_err_shape _ env e₃ s₃ h3
      injection ha2 with he
      rw [he] at ht
      simp at ht

/-! Error shapes of the roller.go variant. -/

theorem rcloseV_err_shape (s : RV.RState) (env : Env) (e : Err) (s₁ : RV.RState)
    (h : RV.rclose s env = (some e, s₁)) : ∃ t, e = .io t := by
  unfold RV.rclose at h
  split at h
  · rcases hc : env.closeErr with _ | t <;> simp only [hc] at h
    · exact absurd h (by simp)
    · exact ⟨t, by injection h with h1 _; injection h1 with h2; exact h2.symm⟩
  · exact absurd h (by simp)

theorem ropenV_err_shape (s : RV.RState) (env : Env) (e : Err) (s₁ : RV.RState)
    (h : RV.ropen s env = (some e, s₁)) : ∃ t, e = .io t := by
  unfold RV.ropen at h
  rcases hs : env.statErr with _ | t <;> simp only [hs] at h
  · rcases hl : s.fs.lookup s.opts.Filename with _ | c <;> simp only [hl] at h
    · rcases hm : env.mkdirErr with _ | t <;> simp only [hm] at h
      · rcases ho : env.openErr with _ | t <;> simp only [ho] at h
        · exact absurd h (by simp)
        · exact ⟨t, by injection h with h1 _; injection h1 with h2; exact h2.symm⟩
      · exact ⟨t, by injection h with h1 _; injection h1 with h2; exact h2.symm⟩
    · rcases ho : env.openErr with _ | t <;> simp only [ho] at h
      · exact absurd h (by simp)
      · exact ⟨t, by injection h with h1 _; injection h1 with h2; exact h2.symm⟩
  · exact ⟨t, by injection h with h1 _; injection h1 with h2; exact h2.symm⟩

theorem rrotateV_err_shape (s : RV.RState) (env : Env) (e : Err) (s₁ : RV.RState)
    (h : RV.rrotate s env = (some e, s₁)) : e ≠ Err.writeTooLong := by
  unfold RV.rrotate at h
  rcases h1 : RV.rclose s env with ⟨eo, s₂⟩
  rcases eo with _ | e₁
  · simp only [h1] at h
    rcases hm : env.mkdirErr with _ | t <;> simp only [hm] at h
    · rcases hr : env.renameErr with _ | t <;> simp only [hr] at h
      · split at h
        · rcases h2 : RV.ropen { s₂ with
              fs := s₂.fs.rename s₂.opts.Filename
                (s₂.opts.RotateName s₂.opts.Filename) } env with ⟨eo₂, s₃⟩
          rcases eo₂ with _ | e₂ <;> simp only [h2] at h
          · exact absurd h (by simp)
          · obtain ⟨t, ht⟩ := ropenV_err_shape _ env e₂ s₃ h2
            have he : e = e₂ := by
              injection h with ha _; injection ha with hb; exact hb.symm
            simp [he, ht]
        · have he : e = Err.notExist := by
            injection h with ha _; injection ha with hb; exact hb.symm
          simp [he]
      · have he : e = Err.io t := by
          injection h with ha _; injection ha with hb; exact hb.symm
        simp [he]
    · have he : e = Err.io t := by
        injection h with ha _; injection ha with hb; exact hb.symm
      simp [he]
  · simp only [h1] at h
    obtain ⟨t, ht⟩ := rcloseV_err_shape s env e₁ s₂ h1
    have he : e = e₁ := by injection h with ha _; injection ha with hb; exact hb.symm
    simp [he, ht]

theorem fileWriteR_err_shape (s : RV.RState) (env : Env) (p : Nat) (e : Err)
    (h : (RV.fileWriteR s env p).1.2 = some e) :
    e = .invalidHandle ∨ ∃ t, e = .io t := by
  unfold RV.fileWriteR at h
  split at h
  · rcases hw : (env.writeRes p).2 with _ | t <;> simp only [hw] at h
    · exact absurd h (by simp)
    · right; exact ⟨t, by injection h with h2; exact h2.symm⟩
  · left
    injection h with h2
    exact h2.symm

theorem rwrite_no_tooLong (s : RV.RState) (env : Env) (p : Nat)
    (hg : ¬(s.opts.Size > 0 ∧ (p : Int) > s.opts.Size)) :
    (RV.rwrite s env p).1.2 ≠ some Err.writeTooLong := by
  intro hcon
  rcases hw : RV.rwrite s env p with ⟨⟨n, eo⟩, s'⟩
  rw [hw] at hcon
  simp only at hcon
  subst hcon
  unfold RV.rwrite at hw
  rw [if_neg hg] at hw
  split at hw
  · rcases h1 : RV.rrotate s env with ⟨eo₁, s₁⟩
    rcases eo₁ with _ | e₁ <;> simp only [h1] at hw
    · have h3 : (RV.fileWriteR s₁ env p).1.2 = some Err.writeTooLong := by
        rw [hw]
      rcases fileWriteR_err_shape s₁ env p _ h3 with hh | ⟨t, hh⟩ <;> simp at hh
    · injection hw with ha hb
      injection ha with ha1 ha2
      exact rrotateV_err_shape s env e₁ s₁ h1 (Option.some.inj ha2)
  · have h3 : (RV.fileWriteR s env p).1.2 = some Err.writeTooLong := by
      rw [hw]
    rcases fileWriteR_err_shape s env p _ h3 with hh | ⟨t, hh⟩ <;> simp at hh

/-- C2.  In both variants: with a size threshold `S > 0` configured, a
single write longer than `S` returns count 0 and the `WriteTooLong`
error, with the state — tracked size, handle, and every file on disk —
unchanged and no rotation performed; with no size threshold configured
(`S ≤ 0`), no write is ever rejected with `WriteTooLong`. -/
theorem oversized_write_rejected :
    (∀ (s : LState) (env : Env) (p : Nat),
      s.opts.FileMaxSize > 0 → (p : Int) > s.opts.FileMaxSize →
      write s env p = ((0, some .writeTooLong), s)) ∧
    (∀ (s : LState) (env : Env) (p : Nat),
      s.opts.FileMaxSize ≤ 0 → (write s env p).1.2 ≠ some Err.writeTooLong) ∧
    (∀ (s : RV.RState) (env : Env) (p : Nat),
      s.opts.Size > 0 → (p : Int) > s.opts.Size →
      RV.rwrite s env p = ((0, some .writeTooLong), s)) ∧
    (∀ (s : RV.RState) (env : Env) (p : Nat),
      s.opts.Size ≤ 0 → (RV.rwrite s env p).1.2 ≠ some Err.writeTooLong) := by
  refine ⟨?_, ?_, ?_, ?_⟩
  · intro s env p h1 h2
    unfold write
    rw [if_pos ⟨h1, h2⟩]
  · intro s env p hle
    exact write_no_tooLong s env p (by rintro ⟨h1, _⟩; omega)
  · intro s env p h1 h2
    unfold RV.rwrite
    rw [if_pos ⟨h1, h2⟩]
  · intro s env p hle
    exact rwrite_no_tooLong s env p (by rintro ⟨h1, _⟩; omega)

/-- Witness for C2: a 101-byte write against the max-size-100 fixture is
rejected with the state unchanged, and a write against a configuration
with no size threshold is not rejected. -/
theorem oversized_write_rejected_witness :
    write cState (Env.ok cDate) 101 = ((0, some .writeTooLong), cState) ∧
      (write { cState with
          opts := { cOpts with FileMaxSize := 0, RotateStrategy := .direct } }
        (Env.ok cDate) 101).1.2 ≠ some Err.writeTooLong :=
  ⟨oversized_write_rejected.1 cState (Env.ok cDate) 101 (by decide) (by decide),
    oversized_write_rejected.2.1 _ (Env.ok cDate) 101 (by decide)⟩

/-- C5.  `compressLogFile`: the uncompressed source is removed exactly
when every step up to and including the final `os.Remove(src)` succeeded
— in particular only after the compressed copy was fully written and all
handles closed (on success the destination holds the gzip encoding of
the source's content); when any step fails, the call returns that error,
the partially written destination is removed (or was never created), and
the source is left intact with its content unchanged. -/
theorem compress_preserves_source_until_done (env : Env) (fs : FS)
    (src dst : List Char) (c : Content)
    (hsrc : fs.lookup src = some c) (hdst : fs.lookup dst = none)
    (hne : src ≠ dst) :
    ((compressLogFile env fs src dst).1 = none →
      (compressLogFile env fs src dst).2.lookup dst = some (.gzipOf c env.gzSize) ∧
        (compressLogFile env fs src dst).2.lookup src = none) ∧
    (∀ e, (compressLogFile env fs src dst).1 = some e →
      (compressLogFile env fs src dst).2.lookup src = some c ∧
        (compressLogFile env fs src dst).2.lookup dst = none) ∧
    ((compressLogFile env fs src dst).2.lookup src = none ↔
      (compressLogFile env fs src dst).1 = none) := by
  unfold compressLogFile
  rcases h1 : env.openSrcErr with _ | t <;> simp only [h1, hsrc]
  · rcases h2 : env.statSrcErr with _ | t <;> simp only [h2]
    · rcases h3 : env.openDstErr with _ | t <;> simp only [h3]
      · rcases h4 : env.copyErr with _ | t <;> simp only [h4]
        · rcases h5 : env.gzCloseErr with _ | t <;> simp only [h5]
          · rcases h6 : env.gzfCloseErr with _ | t <;> simp only [h6]
            · rcases h7 : env.fCloseErr with _ | t <;> simp only [h7]
              · rcases h8 : env.removeSrcErr with _ | t <;> simp only [h8]
                · simp [FS.lookup_erase_self, FS.lookup_erase_ne,
                    FS.lookup_setContent_self, FS.lookup_setContent_ne,
                    hsrc, hdst, hne, Ne.symm hne]
                · simp [FS.lookup_erase_self, FS.lookup_erase_ne,
                    FS.lookup_setContent_self, FS.lookup_setContent_ne,
                    hsrc, hdst, hne, Ne.symm hne]
              · simp [FS.lookup_erase_self, FS.lookup_erase_ne,
                  FS.lookup_setContent_self, FS.lookup_setContent_ne,
                  hsrc, hdst, hne, Ne.symm hne]
            · simp [FS.lookup_erase_self, FS.lookup_erase_ne,
                FS.lookup_setContent_self, FS.lookup_setContent_ne,
                hsrc, hdst, hne, Ne.symm hne]
          · simp [FS.lookup_erase_self, FS.lookup_erase_ne,
              FS.lookup_setContent_self, FS.lookup_setContent_ne,
              hsrc, hdst, hne, Ne.symm hne]
        · simp [FS.lookup_erase_self, FS.lookup_erase_ne,
            FS.lookup_setContent_self, FS.lookup_setContent_ne,
            hsrc, hdst, hne, Ne.symm hne]
      · simp [hsrc, hdst]
    · simp [hsrc, hdst]
  · simp [hsrc, hdst]

/-- The uncompressed backup used by the C5 witness. -/
def c5src : List Char := backupName cOpts.FileName cDate

/-- Its compressed counterpart's name. -/
def c5dst : List Char := c5src ++ (".gz").toList

/-- A directory holding only the uncompressed backup. -/
def c5fs : FS := [⟨c5src, false, .plain 10⟩]

/-- Witness for C5: compressing the single backup in an all-success
environment replaces it by its gzip encoding. -/
theorem compress_preserves_source_until_done_witness :
    (compressLogFile (Env.ok cDate) c5fs c5src c5dst).1 = none ∧
      (compressLogFile (Env.ok cDate) c5fs c5src c5dst).2.lookup c5dst
          = some (.gzipOf (.plain 10) 1) ∧
        (compressLogFile (Env.ok cDate) c5fs c5src c5dst).2.lookup c5src = none := by
  have h := compress_preserves_source_until_done (Env.ok cDate) c5fs c5src c5dst
    (.plain 10) (by decide) (by decide) (by decide)
  exact ⟨by decide, (h.1 (by decide)).1, (h.1 (by decide)).2⟩

/-- Number of distinct logical backups in a list of catalog entries: a
compressed file and its uncompressed counterpart (same name minus the
compression suffix) count once. -/
def dcountBy (suf : List Char) (l : List LogInfo) : Nat :=
  ((l.map (fun f => trimSuffix f.name suf)).toFinset).card

/-- The count filter as the claim words it: walking newest→oldest with
the prefix walked so far in `seen`, an entry is marked for deletion
precisely when the distinct logical-backup count of the walk up to and
including it exceeds the cap. -/
def countSpecAux (maxCount : Int) (suf : List Char) (seen : List LogInfo) :
    List LogInfo → List LogInfo × List LogInfo
  | [] => ([], [])
  | f :: rest =>
    let r := countSpecAux maxCount suf (seen ++ [f]) rest
    if (dcountBy suf (seen ++ [f]) : Int) > maxCount then (r.1, f :: r.2)
    else (f :: r.1, r.2)

theorem countStage_eq_spec_aux (maxCount : Int) (suf : List Char) :
    ∀ (files : List LogInfo) (preserved : List (List Char)) (seen : List LogInfo),
      preserved.Nodup →
      preserved.toFinset = ((seen.map (fun f => trimSuffix f.name suf)).toFinset) →
      countStage maxCount suf files preserved = countSpecAux maxCount suf seen files := by
  intro files
  induction files with
  | nil => intro _ _ _ _; rfl
  | cons f rest ih =>
    intro preserved seen hnd hset
    have hset' :
        (if trimSuffix f.name suf ∈ preserved then preserved
          else trimSuffix f.name suf :: preserved).toFinset =
          (((seen ++ [f]).map (fun g => trimSuffix g.name suf)).toFinset) := by
      rw [List.map_append, List.toFinset_append]
      split
      · rename_i hmem
        have hsub : ([f].map (fun g => trimSuffix g.name suf)).toFinset ⊆
            preserved.toFinset := by
          intro x hx
          simp only [List.map_cons, List.map_nil, List.toFinset_cons,
            List.toFinset_nil, Finset.mem_insert, Finset.mem_singleton] at hx
          rcases hx with hx | hx
          · rw [hx]
            exact List.mem_toFinset.mpr hmem
          · exact absurd hx (by simp)
        rw [hset] at hsub ⊢
        exact (Finset.union_eq_left.mpr hsub).symm
      · rename_i hmem
        rw [List.toFinset_cons, hset]
        simp [Finset.insert_eq, Finset.union_comm]
    have hnd' :
        (if trimSuffix f.name suf ∈ preserved then preserved
          else trimSuffix f.name suf :: preserved).Nodup := by
      split
      · exact hnd
      · rename_i hmem
        exact List.Nodup.cons hmem hnd
    have hlen :
        ((if trimSuffix f.name suf ∈ preserved then preserved
          else trimSuffix f.name suf :: preserved).length : Int) =
          (dcountBy suf (seen ++ [f]) : Int) := by
      have := List.toFinset_card_of_nodup hnd'
      rw [dcountBy, ← hset', this]
    simp only [countStage, countSpecAux]
    rw [ih _ (seen ++ [f]) hnd' hset', hlen]

theorem countStage_eq_spec (maxCount : Int) (suf : List Char) (files : List LogInfo) :
    countStage maxCount suf files [] = countSpecAux maxCount suf [] files :=
  countStage_eq_spec_aux maxCount suf files [] [] List.nodup_nil (by simp)

/-- Count-cap 2 configuration for the C4 scenario. -/
def c4opts : Options :=
  ⟨("app.log").toList, 0, 2, 0, .size, 100, false, (".gz").toList⟩

/-- Three backup timestamps T1 < T2 < T3. -/
def c4t1 : DateTime := ⟨2024, 1, 1, 0, 0, 0, 0⟩

def c4t2 : DateTime := ⟨2024, 1, 2, 0, 0, 0, 0⟩

def c4t3 : DateTime := ⟨2024, 1, 3, 0, 0, 0, 0⟩

/-- The directory for the C4 scenario: the canonical file plus three
backups timestamped T1 < T2 < T3. -/
def c4fs : FS :=
  [⟨("app.log").toList, false, .plain 5⟩,
    ⟨backupName ("app.log").toList c4t1, false, .plain 10⟩,
    ⟨backupName ("app.log").toList c4t2, false, .plain 20⟩,
    ⟨backupName ("app.log").toList c4t3, false, .plain 30⟩]

/-- C4.  The count filter marks an entry for deletion precisely when the
distinct logical-backup count of the newest→oldest walk up to that entry
exceeds the cap (`countSpecAux` is that walk, worded as the claim words
it), and in the concrete scenario — cap 2, three backups T1 < T2 < T3 —
one retention pass deletes exactly the backup timestamped T1, leaving T2
and T3 (and the untouched canonical file). -/
theorem count_filter_spec_and_scenario :
    (∀ (maxCount : Int) (suf : List Char) (files : List LogInfo),
      countStage maxCount suf files [] = countSpecAux maxCount suf [] files) ∧
      millRunOnce c4opts (Env.ok c4t3) c4fs =
        (none,
          [⟨("app.log").toList, false, .plain 5⟩,
            ⟨backupName ("app.log").toList c4t2, false, .plain 20⟩,
            ⟨backupName ("app.log").toList c4t3, false, .plain 30⟩]) :=
  ⟨countStage_eq_spec, by decide⟩

/-- C1.  Under the size strategy, with every filesystem call succeeding
and a pending write that fits in a file (`p ≤ S`), a `Write` from an
open handle over an existing canonical file performs exactly one
rotation precisely when the tracked size plus the pending length exceeds
`S`: the rotation counter grows by one exactly in that case, the write
itself succeeds in full, and afterwards either the tracked size is the
old size plus `p` and the canonical file simply grew (no rotation), or
the tracked size is exactly `p`, the canonical file is fresh holding
only this write, and the old content sits in the timestamped backup. -/
theorem write_size_trigger_exact (s : LState) (env : Env) (p : Nat) (c : Content)
    (hstrat : s.opts.RotateStrategy = .size)
    (henv : env.allOk)
    (hlen : (p : Int) ≤ s.opts.FileMaxSize)
    (hopen : s.fileOpen = true)
    (hfs : s.fs.lookup s.opts.FileName = some c)
    (hbk : backupName s.opts.FileName env.now ≠ s.opts.FileName) :
    (write s env p).2.rotations =
        s.rotations + (if s.size + (p : Int) > s.opts.FileMaxSize then 1 else 0) ∧
      (write s env p).1 = (p, none) ∧
      (s.size + (p : Int) ≤ s.opts.FileMaxSize →
        (write s env p).2.size = s.size + (p : Int) ∧
          (write s env p).2.fs.lookup s.opts.FileName = some (c.grow p)) ∧
      (s.size + (p : Int) > s.opts.FileMaxSize →
        (write s env p).2.size = (p : Int) ∧
          (write s env p).2.fs.lookup s.opts.FileName = some (.plain p) ∧
          (write s env p).2.fs.lookup (backupName s.opts.FileName env.now) = some c) := by
  obtain ⟨hc, hm, hst, hr, ho, hw⟩ := henv
  have hguard : ¬(s.opts.FileMaxSize > 0 ∧ (p : Int) > s.opts.FileMaxSize) := by
    rintro ⟨h1, h2⟩
    omega
  unfold write
  rw [if_neg hguard]
  simp only [hstrat]
  by_cases htr : s.size + (p : Int) > s.opts.FileMaxSize
  · rw [if_pos htr]
    have hrot : rotate s env =
        (none, { s with
          size := 0
          fileOpen := true
          fs := (s.fs.rename s.opts.FileName
            (backupName s.opts.FileName env.now)).setContent s.opts.FileName (.plain 0)
          millPending := true
          rotations := s.rotations + 1
          openAttempts := s.openAttempts + 1 }) := by
      simp [rotate, lclose, openNew, openCreate, mill, hopen, hc, hm, hst, hfs, hr, ho]
    simp only [hrot]
    have hfw : fileWrite { s with
        size := 0
        fileOpen := true
        fs := (s.fs.rename s.opts.FileName
          (backupName s.opts.FileName env.now)).setContent s.opts.FileName (.plain 0)
        millPending := true
        rotations := s.rotations + 1
        openAttempts := s.openAttempts + 1 } env p =
        ((p, none), { s with
          size := 0
          fileOpen := true
          fs := ((s.fs.rename s.opts.FileName
            (backupName s.opts.FileName env.now)).setContent s.opts.FileName
              (.plain 0)).setContent s.opts.FileName (.plain (0 + p))
          millPending := true
          rotations := s.rotations + 1
          openAttempts := s.openAttempts + 1 }) := by
      simp [fileWrite, hw, FS.growAt, FS.lookup_setContent_self, Content.grow]
    simp only [hfw]
    refine ⟨?_, ?_, ?_, ?_⟩
    · simp [htr]
    · trivial
    · intro h3
      exact absurd h3 (by omega)
    · intro h4
      refine ⟨by simp, ?_, ?_⟩
      · simp [FS.lookup_setContent_self]
      · rw [FS.lookup_setContent_ne _ _ _ _ hbk, FS.lookup_setContent_ne _ _ _ _ hbk]
        unfold FS.rename
        rw [hfs, FS.lookup_setContent_self]
  · rw [if_neg htr]
    have hfw2 : fileWrite s env p =
        ((p, none), { s with fs := s.fs.setContent s.opts.FileName (c.grow p) }) := by
      simp [fileWrite, hopen, hw, FS.growAt, hfs]
    simp only [hfw2]
    refine ⟨?_, ?_, ?_, ?_⟩
    · simp [htr]
    · trivial
    · intro h3
      exact ⟨by simp, by simp [FS.lookup_setContent_self]⟩
    · intro h4
      exact absurd h4 htr

/-- The state after the first 60-byte write of the C1 scenario. -/
def c1s1 : LState := (write cState (Env.ok cDate) 60).2

/-- Witness for C1, the spec's scenario: size cap 100, writes of 60 then
60 — the first write succeeds without rotation leaving tracked size 60;
the second performs exactly one rotation, leaves a 60-byte backup and a
fresh 60-byte active file with tracked size 60. -/
theorem write_size_trigger_exact_witness :
    (write cState (Env.ok cDate) 60).1 = (60, none) ∧
      c1s1.size = 60 ∧
      c1s1.rotations = 0 ∧
      (write c1s1 (Env.ok cDate) 60).1 = (60, none) ∧
      (write c1s1 (Env.ok cDate) 60).2.rotations = c1s1.rotations + 1 ∧
      (write c1s1 (Env.ok cDate) 60).2.size = ((60 : Nat) : Int) ∧
      (write c1s1 (Env.ok cDate) 60).2.fs.lookup
          (backupName c1s1.opts.FileName (Env.ok cDate).now) = some (.plain 60) := by
  have h := write_size_trigger_exact c1s1 (Env.ok cDate) 60 (.plain 60) (by decide)
    (Env.ok_allOk cDate) (by decide) (by decide) (by decide) (by decide)
  have htr : c1s1.size + ((60 : Nat) : Int) > c1s1.opts.FileMaxSize := by decide
  refine ⟨by decide, by decide, by decide, h.2.1, ?_, (h.2.2.2 htr).1, (h.2.2.2 htr).2.2⟩
  rw [h.1, if_pos htr]

theorem lclose_fail_state (s : LState) (env : Env) (e : Err) (s₁ : LState)
    (h : lclose s env = (some e, s₁)) : s₁ = { s with fileOpen := false } := by
  unfold lclose at h
  split at h
  · rcases hc : env.closeErr with _ | t <;> simp only [hc] at h
    · exact absurd h (by simp)
    · injection h with _ h2
      exact h2.symm
  · exact absurd h (by simp)

theorem openCreate_fail_state (s : LState) (env : Env) (nm : List Char) (e : Err)
    (s₁ : LState) (h : openCreate s env nm = (some e, s₁)) : s₁ = s := by
  unfold openCreate at h
  rcases ho : env.openErr with _ | t <;> simp only [ho] at h
  · exact absurd h (by simp)
  · injection h with _ h2
    exact h2.symm

/-- A failed rotation never changes the tracked size (`close` drops only
the handle; `openNew` resets the size only after the fresh open
succeeded). -/
theorem rotate_fail_preserves_size (s : LState) (env : Env) (e : Err) (s₁ : LState)
    (h : rotate s env = (some e, s₁)) : s₁.size = s.size := by
  unfold rotate at h
  rcases h1 : lclose s env with ⟨eo, s₂⟩
  rcases eo with _ | e₁
  · rcases h2 : openNew s₂ env with ⟨eo₂, s₃⟩
    rcases eo₂ with _ | e₂
    · simp only [h1, h2] at h
      exact absurd h (by simp)
    · simp only [h1, h2] at h
      injection h with _ hb
      subst hb
      have hs₂ : s₂ = s ∨ s₂ = { s with fileOpen := false } := by
        unfold lclose at h1
        split at h1
        · rcases hc : env.closeErr with _ | t <;> simp only [hc] at h1
          · right
            injection h1 with _ h2s
            exact h2s.symm
          · exact absurd h1 (by simp)
        · left
          injection h1 with _ h2s
          exact h2s.symm
      have hsize : s₃.size = s₂.size := by
        unfold openNew at h2
        rcases hm : env.mkdirErr with _ | t <;> simp only [hm] at h2
        · split at h2
          · rcases hr : env.renameErr with _ | t <;> simp only [hr] at h2
            · rw [openCreate_fail_state _ _ _ _ _ h2]
            · injection h2 with _ h2s
              rw [← h2s]
          · rw [openCreate_fail_state _ _ _ _ _ h2]
        · injection h2 with _ h2s
          rw [← h2s]
      rcases hs₂ with h' | h' <;> rw [hsize, h']
  · simp only [h1] at h
    injection h with _ hb
    subst hb
    rw [lclose_fail_state s env e₁ s₂ h1]

/-- C9.  Under the direct strategy, when the underlying file write
succeeds in full but the rotation performed after it fails, `Write`
returns count 0 together with the rotation error — even though all `p`
requested bytes were written and the tracked size grew by `p`. -/
theorem direct_write_rotation_failure (s : LState) (env : Env) (p : Nat)
    (e : Err) (s₃ : LState)
    (hstrat : s.opts.RotateStrategy = .direct)
    (hguard : ¬(s.opts.FileMaxSize > 0 ∧ (p : Int) > s.opts.FileMaxSize))
    (hopen : s.fileOpen = true)
    (hw : env.writeRes p = (p, none))
    (hrot : rotate { s with
        fs := s.fs.growAt s.opts.FileName p,
        size := s.size + (p : Int) } env = (some e, s₃)) :
    (fileWrite s env p).1 = (p, none) ∧
      write s env p = ((0, some e), s₃) ∧
      s₃.size = s.size + (p : Int) := by
  have hfw : fileWrite s env p =
      ((p, none), { s with fs := s.fs.growAt s.opts.FileName p }) := by
    simp [fileWrite, hopen, hw]
  refine ⟨by rw [hfw], ?_, ?_⟩
  · unfold write
    rw [if_neg hguard]
    simp only [hstrat, hfw, hrot]
  · rw [rotate_fail_preserves_size _ _ _ _ hrot]

/-- The failing environment of the C9 witness: the `close` during
rotation fails. -/
def c9env : Env := { Env.ok cDate with closeErr := some 3 }

/-- A direct-strategy state over an existing canonical file. -/
def c9state : LState :=
  ⟨⟨("data.bin").toList, 0, 0, 0, .direct, 0, false, (".gz").toList⟩, 5, true,
    [⟨("data.bin").toList, false, .plain 5⟩], false, 0, 0⟩

/-- Witness for C9: a 6-byte write whose post-write rotation fails at
`close` returns `(0, io 3)` while the tracked size grew to 11. -/
theorem direct_write_rotation_failure_witness :
    (fileWrite c9state c9env 6).1 = (6, none) ∧
      write c9state c9env 6 = ((0, some (.io 3)),
        (write c9state c9env 6).2) ∧
      (write c9state c9env 6).2.size = c9state.size + ((6 : Nat) : Int) := by
  have h := direct_write_rotation_failure c9state c9env 6 (.io 3)
    (write c9state c9env 6).2 (by decide) (by decide) (by decide) (by decide)
    (by decide)
  exact ⟨h.1, h.2.1, h.2.2⟩

theorem lclose_ok_fileOpen (s : LState) (env : Env) (s₂ : LState)
    (h : lclose s env = (none, s₂)) : s₂.fileOpen = false := by
  unfold lclose at h
  split at h
  · injection h with _ h2
    rw [← h2]
  · rename_i hcond
    injection h with _ h2
    rw [← h2]
    exact Bool.not_eq_true s.fileOpen ▸ hcond

theorem openNew_fail_fileOpen (s : LState) (env : Env) (e : Err) (s₃ : LState)
    (h : openNew s env = (some e, s₃)) : s₃.fileOpen = s.fileOpen := by
  unfold openNew at h
  rcases hm : env.mkdirErr with _ | t <;> simp only [hm] at h
  · split at h
    · rcases hr : env.renameErr with _ | t <;> simp only [hr] at h
      · rw [openCreate_fail_state _ _ _ _ _ h]
      · injection h with _ h2
        rw [← h2]
    · rw [openCreate_fail_state _ _ _ _ _ h]
  · injection h with _ h2
    rw [← h2]

/-- The environment of the C3 counterexample: the fresh open during
rotation fails. -/
def c3envFail : Env := { Env.ok cDate with openErr := some 7 }

/-- A size-strategy state with tracked size 60 over a 60-byte canonical
file. -/
def c3s0 : LState :=
  ⟨cOpts, 60, true, [⟨("app.log").toList, false, .plain 60⟩], false, 0, 0⟩

/-- The state left behind by the write whose rotation failed. -/
def c3s1 : LState := (write c3s0 c3envFail 60).2

/-- C3, counterexample.  A 60-byte write triggers rotation, the rotation
fails after renaming (the fresh open errors), and the write returns that
error with the file closed.  The next `Write` (10 bytes, below the
trigger) does NOT attempt to reopen or recreate the canonical file: it
performs no open attempt, fails with `os.ErrInvalid` on the closed
handle, and leaves the state unchanged — contradicting the claim that
the next write reopens before writing. -/
theorem failed_rotation_reopen_cex :
    (write c3s0 c3envFail 60).1 = (0, some (.io 7)) ∧
      c3s1.fileOpen = false ∧
      write c3s1 (Env.ok cDate) 10 = ((0, some .invalidHandle), c3s1) ∧
      (write c3s1 (Env.ok cDate) 10).2.openAttempts = c3s1.openAttempts := by
  decide

/-- C3, amended.  (a) A failed rotation aborts, returns the error, and
leaves the active file closed.  But the engine reopens only through the
rotation path: (b) under the size strategy, a next write that does not
fire the trigger performs no open attempt at all — it fails with
`os.ErrInvalid` on the closed handle and changes nothing; (c) a next
write that does fire the trigger recreates the canonical file inside
`rotate` and then writes into it; (d) under the direct strategy the
post-write rotation recreates the file, while the write itself still
fails on the closed handle. -/
theorem failed_rotation_behavior :
    (∀ (s : LState) (env : Env) (e : Err) (s' : LState),
      rotate s env = (some e, s') → s'.fileOpen = false) ∧
    (∀ (s : LState) (env : Env) (p : Nat),
      s.opts.RotateStrategy = .size → s.fileOpen = false →
      ¬(s.opts.FileMaxSize > 0 ∧ (p : Int) > s.opts.FileMaxSize) →
      ¬(s.size + (p : Int) > s.opts.FileMaxSize) →
      write s env p = ((0, some .invalidHandle), s)) ∧
    (∀ (s : LState) (env : Env) (p : Nat),
      s.opts.RotateStrategy = .size → s.fileOpen = false → env.allOk →
      ¬(s.opts.FileMaxSize > 0 ∧ (p : Int) > s.opts.FileMaxSize) →
      (s.size + (p : Int) > s.opts.FileMaxSize) →
      s.fs.lookup s.opts.FileName = none →
      (write s env p).1 = (p, none) ∧
        (write s env p).2.fileOpen = true ∧
        (write s env p).2.openAttempts = s.openAttempts + 1) ∧
    (∀ (s : LState) (env : Env) (p : Nat),
      s.opts.RotateStrategy = .direct → s.fileOpen = false → env.allOk →
      ¬(s.opts.FileMaxSize > 0 ∧ (p : Int) > s.opts.FileMaxSize) →
      (write s env p).1 = (0, some .invalidHandle) ∧
        (write s env p).2.fileOpen = true ∧
        (write s env p).2.openAttempts = s.openAttempts + 1) := by
  refine ⟨?_, ?_, ?_, ?_⟩
  · intro s env e s' h
    unfold rotate at h
    rcases h1 : lclose s env with ⟨eo, s₂⟩
    rcases eo with _ | e₁
    · rcases h2 : openNew s₂ env with ⟨eo₂, s₃⟩
      rcases eo₂ with _ | e₂ <;> simp only [h1, h2] at h
      · exact absurd h (by simp)
      · injection h with _ hb
        subst hb
        rw [openNew_fail_fileOpen _ _ _ _ h2]
        exact lclose_ok_fileOpen _ _ _ h1
    · simp only [h1] at h
      injection h with _ hb
      subst hb
      rw [lclose_fail_state _ _ _ _ h1]
  · intro s env p hstrat hclosed hguard htrig
    unfold write
    rw [if_neg hguard]
    simp only [hstrat]
    rw [if_neg htrig]
    have hfw : fileWrite s env p = ((0, some .invalidHandle), s) := by
      simp [fileWrite, hclosed]
    simp only [hfw]
    simp
  · intro s env p hstrat hclosed henv hguard htrig hfs0
    obtain ⟨hc, hm, hst, hr, ho, hw⟩ := henv
    unfold write
    rw [if_neg hguard]
    simp only [hstrat]
    rw [if_pos htrig]
    have hrot : rotate s env =
        (none, { s with
          size := 0
          fileOpen := true
          fs := s.fs.setContent s.opts.FileName (.plain 0)
          millPending := true
          rotations := s.rotations + 1
          openAttempts := s.openAttempts + 1 }) := by
      simp [rotate, lclose, openNew, openCreate, mill, hclosed, hc, hm, hst, hfs0, hr, ho]
    simp only [hrot]
    have hfw : fileWrite { s with
        size := 0
        fileOpen := true
        fs := s.fs.setContent s.opts.FileName (.plain 0)
        millPending := true
        rotations := s.rotations + 1
        openAttempts := s.openAttempts + 1 } env p =
        ((p, none), { s with
          size := 0
          fileOpen := true
          fs := (s.fs.setContent s.opts.FileName (.plain 0)).setContent
            s.opts.FileName (.plain (0 + p))
          millPending := true
          rotations := s.rotations + 1
          openAttempts := s.openAttempts + 1 }) := by
      simp [fileWrite, hw, FS.growAt, FS.lookup_setContent_self, Content.grow]
    simp only [hfw]
    exact ⟨trivial, trivial, trivial⟩
  · intro s env p hstrat hclosed henv hguard
    obtain ⟨hc, hm, hst, hr, ho, hw⟩ := henv
    unfold write
    rw [if_neg hguard]
    simp only [hstrat]
    have hfw : fileWrite s env p = ((0, some .invalidHandle), s) := by
      simp [fileWrite, hclosed]
    simp only [hfw]
    by_cases hl : (s.fs.lookup s.opts.FileName).isSome
    · have hrot : rotate { s with size := s.size + ((0 : Nat) : Int) } env =
          (none, { s with
            size := 0
            fileOpen := true
            fs := (s.fs.rename s.opts.FileName
              (backupName s.opts.FileName env.now)).setContent
                s.opts.FileName (.plain 0)
            millPending := true
            rotations := s.rotations + 1
            openAttempts := s.openAttempts + 1 }) := by
        simp [rotate, lclose, openNew, openCreate, mill, hclosed, hc, hm, hst, hl, hr, ho]
      simp only [hrot]
      exact ⟨trivial, trivial, trivial⟩
    · have hrot : rotate { s with size := s.size + ((0 : Nat) : Int) } env =
          (none, { s with
            size := 0
            fileOpen := true
            fs := s.fs.setContent s.opts.FileName (.plain 0)
            millPending := true
            rotations := s.rotations + 1
            openAttempts := s.openAttempts + 1 }) := by
        simp [rotate, lclose, openNew, openCreate, mill, hclosed, hc, hm, hst, hl, hr, ho]
      simp only [hrot]
      exact ⟨trivial, trivial, trivial⟩

/-- Witness for the amended C3: in the concrete post-failure state, a
below-threshold write changes nothing and reopens nothing, while an
above-threshold write recreates the canonical file through the rotation
path. -/
theorem failed_rotation_behavior_witness :
    write c3s1 (Env.ok cDate) 10 = ((0, some .invalidHandle), c3s1) ∧
      (write c3s1 (Env.ok cDate) 50).1 = (50, none) ∧
      (write c3s1 (Env.ok cDate) 50).2.fileOpen = true ∧
      (write c3s1 (Env.ok cDate) 50).2.openAttempts = c3s1.openAttempts + 1 := by
  have hb := failed_rotation_behavior.2.1 c3s1 (Env.ok cDate) 10
    (by decide) (by decide) (by decide) (by decide)
  have hcp := failed_rotation_behavior.2.2.1 c3s1 (Env.ok cDate) 50
    (by decide) (by decide) (Env.ok_allOk cDate) (by decide) (by decide) (by decide)
  exact ⟨hb, hcp.1, hcp.2.1, hcp.2.2⟩

/-- A concrete open `Roller` state for the C10 witness. -/
def cRState : RV.RState :=
  ⟨⟨("data.log").toList, 100, 0, fun n => n⟩, true, 7,
    [⟨("data.log").toList, false, .plain 7⟩], false, 0⟩

/-- Witness for C10: the first `Close` succeeds, the second panics. -/
theorem close_not_idempotent_witness :
    RV.rCloseFull cRState (Env.ok cDate) =
        .ok none (RV.rclose { cRState with millClosed := true } (Env.ok cDate)).2 ∧
      RV.rCloseFull (RV.rclose { cRState with millClosed := true } (Env.ok cDate)).2
        (Env.ok cDate) = .panicked :=
  ⟨rfl,
    close_not_idempotent cRState (Env.ok cDate) (Env.ok cDate) none
      (RV.rclose { cRState with millClosed := true } (Env.ok cDate)).2 rfl⟩

end Roller
